import Mathlib

/-!
# Verification of the EDGAR IPO notifier (`src/EDGAR.py`)

A shallow embedding of the script's core: the regex-based detail
extractor, the JSON state store (`seen` / `save_state`), and one
iteration of the `main` polling loop, together with theorems settling
the specification's claims about them.

Strings are modelled as Lean `String` / `List Char`; all inputs of
interest are ASCII, where Python's `str.lower` and `re.IGNORECASE`
coincide with the ASCII case maps used here.
-/

set_option autoImplicit false

namespace Edgar

/-! ## Character classes used by the two regexes -/

/-- Python's whitespace class (ASCII): space, tab, newline, carriage
return, vertical tab and form feed. -/
def isSpaceCh (c : Char) : Bool :=
  c = ' ' || c = '\t' || c = '\n' || c = '\r' || c = Char.ofNat 11 || c = Char.ofNat 12

/-- The class of a digit or a comma (written `[0-9,]` in the source). -/
def isDigitComma (c : Char) : Bool :=
  c.isDigit || c = ','

/-- The ticker letter class: the source writes `[A-Z]`, but
`re.IGNORECASE` applies to character classes as well, so it matches an
ASCII letter of either case. -/
def isTickerCh (c : Char) : Bool :=
  c.isAlpha

/-! ## Deterministic matcher for the two search patterns

Python's `re.search` scans left to right for the first start position
admitting a match.  Both patterns are sequences of case-insensitive
literals, greedy character-class repetitions and optional single
characters whose adjacent character sets are disjoint, so the
backtracking matcher is equivalent to the greedy, non-backtracking
matcher embedded here (validated against CPython's `re` on the claims'
inputs and a family of edge cases). -/

/-- Case-insensitive literal match (the effect of `re.IGNORECASE` on a
literal); returns the rest of the input on success. -/
def matchLit : List Char → List Char → Option (List Char)
  | [], cs => some cs
  | _ :: _, [] => none
  | l :: ls, c :: cs => if c.toLower = l.toLower then matchLit ls cs else none

/-- One or more whitespace characters, greedy (the pattern's `\s+`). -/
def matchWs1 (cs : List Char) : Option (List Char) :=
  match cs.span isSpaceCh with
  | ([], _) => none
  | (_ :: _, rest) => some rest

/-- Zero or more whitespace characters, greedy (the pattern's `\s*`). -/
def matchWs0 (cs : List Char) : List Char :=
  (cs.span isSpaceCh).2

/-- An optional single character, greedy (the pattern's `[:\-]?` and
`\$?`). -/
def matchOptCh (p : Char → Bool) : List Char → List Char
  | [] => []
  | c :: cs => if p c then cs else c :: cs

/-- Greedy repetition bounded above (the `{1,5}` quantifier takes at
most 5); returns the consumed prefix and the rest. -/
def takeAtMost (p : Char → Bool) : Nat → List Char → List Char × List Char
  | 0, cs => ([], cs)
  | _ + 1, [] => ([], [])
  | n + 1, c :: cs =>
    if p c then
      let r := takeAtMost p n cs
      (c :: r.1, r.2)
    else ([], c :: cs)

/-- Tail of the amount pattern after the literal words:
`\s*[:\-]?\s*\$?([0-9,]+\.?[0-9]*)`, returning capture group 1. -/
def amountGroupAt (cs : List Char) : Option String :=
  let cs1 := matchWs0 cs
  let cs2 := matchOptCh (fun c => c = ':' || c = '-') cs1
  let cs3 := matchWs0 cs2
  let cs4 := matchOptCh (fun c => c = '$') cs3
  match cs4.span isDigitComma with
  | ([], _) => none
  | (d :: ds, rest1) =>
    match rest1 with
    | '.' :: rest2 => some (String.mk ((d :: ds) ++ ['.'] ++ (rest2.span Char.isDigit).1))
    | _ => some (String.mk (d :: ds))

/-- Match, at the current position, the pattern
`maximum\s+aggregate\s+offering\s+price\s*[:\-]?\s*\$?([0-9,]+\.?[0-9]*)`
(IGNORECASE) and return capture group 1. -/
def matchAmountAt (cs : List Char) : Option String :=
  (matchLit "maximum".toList cs).bind fun cs1 =>
  (matchWs1 cs1).bind fun cs2 =>
  (matchLit "aggregate".toList cs2).bind fun cs3 =>
  (matchWs1 cs3).bind fun cs4 =>
  (matchLit "offering".toList cs4).bind fun cs5 =>
  (matchWs1 cs5).bind fun cs6 =>
  (matchLit "price".toList cs6).bind fun cs7 =>
  amountGroupAt cs7

/-- Build the capture group from the greedy `{1,5}` repetition: fail
on an empty take (the quantifier needs at least one letter). -/
def mkTicker : List Char × List Char → Option String
  | ([], _) => none
  | (c :: g, _) => some (String.mk (c :: g))

/-- Tail of the ticker pattern after the literal words:
`\s*[:\-]?\s*([A-Z]{1,5})` under IGNORECASE, returning capture
group 1. -/
def tickerGroupAt (cs : List Char) : Option String :=
  let cs1 := matchWs0 cs
  let cs2 := matchOptCh (fun c => c = ':' || c = '-') cs1
  let cs3 := matchWs0 cs2
  mkTicker (takeAtMost isTickerCh 5 cs3)

/-- Match, at the current position, the pattern
`proposed\s+ticker\s+symbol\s*[:\-]?\s*([A-Z]{1,5})` (IGNORECASE) and
return capture group 1. -/
def matchTickerAt (cs : List Char) : Option String :=
  (matchLit "proposed".toList cs).bind fun cs1 =>
  (matchWs1 cs1).bind fun cs2 =>
  (matchLit "ticker".toList cs2).bind fun cs3 =>
  (matchWs1 cs3).bind fun cs4 =>
  (matchLit "symbol".toList cs4).bind fun cs5 =>
  tickerGroupAt cs5

/-- The search loop of `re.search`: try the matcher at every start
position, leftmost first (the final empty suffix included). -/
def searchSuffixes (m : List Char → Option String) : List Char → Option String
  | [] => m []
  | c :: cs =>
    match m (c :: cs) with
    | some r => some r
    | none => searchSuffixes m cs

/-- Result of the extractor: the entries of the returned Python dict,
with the structure field `amount` standing for key `'Amount'` and
`ticker` for key `'Ticker'`; a `none` field is an absent key. -/
structure Details where
  amount : Option String
  ticker : Option String
  deriving DecidableEq, Repr

/-- Embedding of `extract_offering_details` (src/EDGAR.py lines
84–98): run the two independent `re.search` patterns over the text. -/
def extract_offering_details (text : String) : Details :=
  { amount := searchSuffixes matchAmountAt text.toList
    ticker := searchSuffixes matchTickerAt text.toList }

/-! ## State management (`src/EDGAR.py` lines 44–54)

A key is a Python tuple of strings — `("CIK", name, acc)` or
`("RSS", id)`.  `json.dump(list(seen))` serializes the set as a JSON
list of lists of strings and `set(tuple(item) for item in json.load(f))`
reads it back, so the JSON round trip is the identity on the list of
keys; the persisted file is modelled by the keys it holds when it is
valid JSON. -/

def Key := List String
deriving DecidableEq, Repr

/-- Addition to the Python `seen` set, modelled as a duplicate-free
list. -/
def addKey (s : List Key) (k : Key) : List Key :=
  if k ∈ s then s else s ++ [k]

/-- The durable state file as the start-up load can encounter it. -/
inductive FileState where
  /-- No file at `STATE_FILE` (first run): `open` raises
  `FileNotFoundError`. -/
  | missing
  /-- An empty file, as left behind by an interrupted `save_state`
  after `open(STATE_FILE, 'w')` truncated it: `json.load` raises. -/
  | truncated
  /-- Present but not a valid JSON key list (corrupt contents, or a
  file the process cannot read): reading it raises. -/
  | malformed
  /-- A valid serialized key list. -/
  | valid (keys : List Key)
  deriving DecidableEq, Repr

/-- The start-up load (lines 44–48): the code wraps `seen =
set(... json.load(f))` in a `try` whose only handler is for
`FileNotFoundError`.  Any other failure — `json.JSONDecodeError` on
truncated or malformed contents, an unreadable file — propagates,
modelled as `Except.error`. -/
def loadState : FileState → Except Unit (List Key)
  | .missing => .ok []
  | .truncated => .error ()
  | .malformed => .error ()
  | .valid keys => .ok keys

/-- File contents after an uninterrupted `save_state` (lines 51–54):
the whole current set, serialized. -/
def saveFile (s : List Key) : FileState :=
  .valid s

/-- Sequence of file states an interruption of `save_state` can
expose: `open(STATE_FILE, 'w')` first truncates the file in place (no
temp file, no rename), then `json.dump` writes the new contents.  A
crash between the two leaves the `truncated` state on disk. -/
def saveStateSteps (s : List Key) : List FileState :=
  [.truncated, .valid s]

/-! ## One iteration of the main loop (`src/EDGAR.py` lines 161–188)

The body of `while True` up to `save_state()` runs inside a single
`try`; the `except Exception` at line 185 logs and swallows whatever
escapes it.  Effects are embedded explicitly:

* each `requests` / feed fetch is an `Except Unit _` supplied by an
  `Env` (a raised exception is `.error ()`);
* the outcome of the n-th `requests.post` to the webhook in the cycle
  is `Env.postResult n`;
* Python exception flow is a `CycleState × Bool` return value: `false`
  means an exception is propagating, with the side effects performed
  so far kept in the state (the Python `seen` set is mutated in
  place). -/

/-- One row of the result of `fetch_filings`: `(accession, form, date,
primary_document)`. -/
structure FilingRow where
  acc : String
  form : String
  date : String
  doc : String
  deriving DecidableEq, Repr

/-- One entry of the RSS feed (`entry.id`, `entry.title`,
`entry.summary`, `entry.link`). -/
structure RssEntry where
  id : String
  title : String
  summary : String
  link : String
  deriving DecidableEq, Repr

/-- Outcome of one `requests.post` to the Discord webhook. -/
inductive PostResult where
  /-- The post call itself raised (connection error, timeout): not
  caught anywhere in `post_embed_to_discord`. -/
  | transportErr
  /-- The webhook answered with an error status: `resp.raise_for_status()`
  raises, but inside the handler's `try`, where it is logged. -/
  | httpError
  /-- A 2xx response. -/
  | success
  deriving DecidableEq, Repr

/-- The embed payload handed to `post_embed_to_discord`: title,
description, url and the inline fields in insertion order (the
wall-clock `timestamp` field is outside the model). -/
structure Post where
  title : String
  description : String
  url : String
  fields : List (String × String)
  deriving DecidableEq, Repr

/-- Configuration surface the cycle reads: `CIKS` (in insertion
order), the form allow-list `("S-1", "F-1", "D-1")` and
`RSS_KEYWORDS`. -/
structure Config where
  ciks : List (String × String)
  allowForms : List String
  rssKeywords : List String

/-- Responses of the outside world during one cycle. -/
structure Env where
  /-- Result of `fetch_filings` per CIK: the parsed rows, or a raised
  exception. -/
  fetchFilings : String → Except Unit (List FilingRow)
  /-- Result of `fetch_rss_entries()`: the feed entries, or a raised
  exception. -/
  fetchRss : Except Unit (List RssEntry)
  /-- Result of the document fetch in `handle_company_filing`, keyed
  by the computed filing URL: the response text (of whatever HTTP
  status — the code never checks it), or a raised transport error. -/
  fetchDoc : String → Except Unit String
  /-- Outcome of the n-th webhook post of the cycle. -/
  postResult : Nat → PostResult

/-- Mutable state the cycle acts on: the in-memory `seen` set, the
trace of webhook posts attempted so far, and the state file. -/
structure CycleState where
  seen : List Key
  attempts : List Post
  file : FileState
  /-- Whether `save_state()` has run this cycle. -/
  flushed : Bool
  deriving DecidableEq, Repr

/-- Embedding of `post_embed_to_discord` (lines 101–120): the post is
attempted and recorded; only a transport error escapes, while an HTTP
error status is caught by the inner `try` and logged. -/
def postEmbed (env : Env) (p : Post) (st : CycleState) : CycleState × Bool :=
  let res := env.postResult st.attempts.length
  let st' := { st with attempts := st.attempts ++ [p] }
  match res with
  | .transportErr => (st', false)
  | .httpError => (st', true)
  | .success => (st', true)

/-- Dash removal of line 130 (`acc.replace('-', '')`). -/
def stripDashes (acc : String) : String :=
  String.mk (acc.toList.filter (fun c => c ≠ '-'))

/-- Lookup `CIKS[name]` on the config's association list (`main` only
calls it with names drawn from `CIKS`, so the miss branch is
unreachable there). -/
def cikOf (cfg : Config) (name : String) : String :=
  match cfg.ciks.lookup name with
  | some c => c
  | none => ""

/-- Filing URL computed at line 131 (the `.replace('.txt', '.txt')` at
line 133 is the identity and is dropped). -/
def filingUrl (cfg : Config) (name acc doc : String) : String :=
  "https://www.sec.gov/Archives/edgar/data/" ++ cikOf cfg name ++ "/"
    ++ stripDashes acc ++ "/" ++ doc

/-- Field list in the dict insertion order of
`extract_offering_details`: `'Amount'` first when present, then
`'Ticker'`. -/
def detailsFields (d : Details) : List (String × String) :=
  (match d.amount with | some a => [("Amount", a)] | none => [])
    ++ (match d.ticker with | some t => [("Ticker", t)] | none => [])

/-- Embed built by `handle_company_filing` from the first 2000
characters of the fetched document. -/
def companyPost (cfg : Config) (name : String) (f : FilingRow) (body : String) : Post :=
  { title := name ++ " filed " ++ f.form
    description := "Date: " ++ f.date
    url := filingUrl cfg name f.acc f.doc
    fields := detailsFields (extract_offering_details (String.mk (body.toList.take 2000))) }

/-- Embedding of `handle_company_filing` (lines 126–141): fetch the
document (a raised fetch propagates — there is no `try` here),
truncate to 2000 characters, extract, post. -/
def handleCompanyFiling (cfg : Config) (env : Env) (name : String)
    (f : FilingRow) (st : CycleState) : CycleState × Bool :=
  match env.fetchDoc (filingUrl cfg name f.acc f.doc) with
  | .error _ => (st, false)
  | .ok body => postEmbed env (companyPost cfg name f body) st

/-- Summary snippet of `handle_industry_entry`: newline replacement
then truncation to 200 characters. -/
def industrySnippet (summary : String) : String :=
  let s := summary.toList.map (fun c => if c = '\n' then ' ' else c)
  if 200 < s.length then String.mk (s.take 200) ++ "..." else String.mk s

/-- Embed built by `handle_industry_entry` from a feed entry: title,
summary snippet, link, and no fields. -/
def industryPost (e : RssEntry) : Post :=
  { title := e.title
    description := industrySnippet e.summary
    url := e.link
    fields := [] }

/-- Embedding of `handle_industry_entry` (lines 144–155). -/
def handleIndustryEntry (env : Env) (e : RssEntry) (st : CycleState) :
    CycleState × Bool :=
  postEmbed env (industryPost e) st

/-- Test whether `needle` occurs as a contiguous run at the head of
`hay`. -/
def headRun : List Char → List Char → Bool
  | [], _ => true
  | _ :: _, [] => false
  | a :: as, b :: bs => a = b && headRun as bs

/-- Python's substring test `needle in hay` on strings as character
lists. -/
def containsL (needle : List Char) : List Char → Bool
  | [] => headRun needle []
  | c :: cs => headRun needle (c :: cs) || containsL needle cs

/-- Key of a company filing row: `("CIK", name, acc)` (line 167). -/
def cKey (name : String) (f : FilingRow) : Key :=
  ["CIK", name, f.acc]

/-- Key of an RSS entry: `("RSS", entry.id)` (line 176). -/
def rKey (e : RssEntry) : Key :=
  ["RSS", e.id]

/-- Relevance test of the RSS path (lines 179–180): some configured
keyword occurs in the lower-cased concatenation of title and
summary. -/
def rssRelevant (cfg : Config) (e : RssEntry) : Bool :=
  cfg.rssKeywords.any fun k =>
    containsL k.toList ((e.title ++ e.summary).toList.map Char.toLower)

/-- Inner entity loop (lines 166–172): per row, skip if seen,
otherwise run the handler when the form is allow-listed, then record
the key — the record is skipped when the handler raises. -/
def processFilings (cfg : Config) (env : Env) (name : String) :
    List FilingRow → CycleState → CycleState × Bool
  | [], st => (st, true)
  | f :: rest, st =>
    if cKey name f ∈ st.seen then
      processFilings cfg env name rest st
    else if f.form ∈ cfg.allowForms then
      match handleCompanyFiling cfg env name f st with
      | (st', true) =>
        processFilings cfg env name rest { st' with seen := addKey st'.seen (cKey name f) }
      | (st', false) => (st', false)
    else
      processFilings cfg env name rest { st with seen := addKey st.seen (cKey name f) }

/-- RSS loop body (lines 175–182): per entry, skip if seen, otherwise
run the handler when a keyword occurs in the lower-cased title +
summary, then record the key. -/
def processRss (cfg : Config) (env : Env) :
    List RssEntry → CycleState → CycleState × Bool
  | [], st => (st, true)
  | e :: rest, st =>
    if rKey e ∈ st.seen then
      processRss cfg env rest st
    else if rssRelevant cfg e then
      match handleIndustryEntry env e st with
      | (st', true) =>
        processRss cfg env rest { st' with seen := addKey st'.seen (rKey e) }
      | (st', false) => (st', false)
    else
      processRss cfg env rest { st with seen := addKey st.seen (rKey e) }

/-- Outer entity loop (lines 165–172): a raised `fetch_filings`
propagates out of the whole loop. -/
def entityPhase (cfg : Config) (env : Env) :
    List (String × String) → CycleState → CycleState × Bool
  | [], st => (st, true)
  | (name, cik) :: rest, st =>
    match env.fetchFilings cik with
    | .error _ => (st, false)
    | .ok rows =>
      match processFilings cfg env name rows st with
      | (st', true) => entityPhase cfg env rest st'
      | (st', false) => (st', false)

/-- Effect of an uninterrupted `save_state()` (lines 51–54) on the
cycle state: the file now holds the whole current set. -/
def saveState (st : CycleState) : CycleState :=
  { st with file := saveFile st.seen, flushed := true }

/-- Body of the `try` of one `while True` iteration (lines 163–184):
entity loop, then RSS loop, then `save_state()`. -/
def cycleBody (cfg : Config) (env : Env) (st : CycleState) :
    CycleState × Bool :=
  match entityPhase cfg env cfg.ciks st with
  | (st', false) => (st', false)
  | (st', true) =>
    match env.fetchRss with
    | .error _ => (st', false)
    | .ok entries =>
      match processRss cfg env entries st' with
      | (st'', false) => (st'', false)
      | (st'', true) => (saveState st'', true)

/-- One full iteration of the main loop: the `except Exception` at
line 185 logs and swallows any exception, keeping the side effects
performed so far; the process then sleeps and continues. -/
def runCycle (cfg : Config) (env : Env) (st : CycleState) : CycleState :=
  (cycleBody cfg env st).1

/-! ## Concrete fixtures used by witnesses and counterexamples -/

/-- Configuration with two monitored entities, the source's form
allow-list and keyword set. -/
def testCfg : Config :=
  { ciks := [("Kraken", "0001763926"), ("Gemini", "0001845748")]
    allowForms := ["S-1", "F-1", "D-1"]
    rssKeywords := ["crypto", "blockchain"] }

/-- A relevant (allow-listed) filing row. -/
def rowS1 : FilingRow :=
  { acc := "0001-23-456", form := "S-1", date := "2025-01-02", doc := "d.htm" }

/-- A second relevant filing row. -/
def rowS2 : FilingRow :=
  { acc := "0002-23-456", form := "S-1", date := "2025-01-03", doc := "e.htm" }

/-- A row whose form is not in the allow-list. -/
def rowTenK : FilingRow :=
  { acc := "0003-23-456", form := "10-K", date := "2025-01-04", doc := "f.htm" }

/-- An RSS entry whose title holds a configured keyword. -/
def entryKw : RssEntry :=
  { id := "urn:1", title := "A blockchain filing", summary := "s", link := "l" }

/-- An RSS entry with no configured keyword in title or summary. -/
def entryNoKw : RssEntry :=
  { id := "urn:2", title := "Steel industry news", summary := "s", link := "l" }

/-- The fresh first-run state: empty set, no file. -/
def st0 : CycleState :=
  { seen := [], attempts := [], file := .missing, flushed := false }

/-- An environment where everything succeeds: Kraken has one new
relevant filing, the feed has one matching entry. -/
def okEnv : Env :=
  { fetchFilings := fun cik => if cik = "0001763926" then .ok [rowS1] else .ok []
    fetchRss := .ok [entryKw]
    fetchDoc := fun _ => .ok "x"
    postResult := fun _ => .success }

/-- Same world, but every webhook post fails at the transport level,
and Kraken has two new relevant filings. -/
def envPostDown : Env :=
  { okEnv with
    fetchFilings := fun cik => if cik = "0001763926" then .ok [rowS1, rowS2] else .ok []
    postResult := fun _ => .transportErr }

/-- Same world as `okEnv`, but the webhook rejects every post with an
error status. -/
def envPostReject : Env :=
  { okEnv with postResult := fun _ => .httpError }

/-- A world where the Kraken fetch raises while Gemini has a new
relevant filing and the feed has a matching entry. -/
def envFetchDown : Env :=
  { okEnv with
    fetchFilings := fun cik => if cik = "0001763926" then .error () else .ok [rowS2] }

/-- Same world as `okEnv`, but the RSS fetch raises. -/
def envRssDown : Env :=
  { okEnv with fetchRss := .error () }

/-- Same world as `okEnv`, but the document fetch raises. -/
def envDocDown : Env :=
  { okEnv with fetchDoc := fun _ => .error () }

/-- A state that has already seen the irrelevant filing and the
keyword-free feed entry of the fixtures. -/
def stSeenBoth : CycleState :=
  { seen := [["CIK", "Kraken", "0003-23-456"], ["RSS", "urn:2"]]
    attempts := []
    file := .missing
    flushed := false }

/-! ## Helper lemmas -/

theorem mem_addKey_of_mem (s : List Key) (k k' : Key) (h : k' ∈ s) :
    k' ∈ addKey s k := by
  unfold addKey
  split
  · exact h
  · exact List.mem_append_left _ h

theorem self_mem_addKey (s : List Key) (k : Key) : k ∈ addKey s k := by
  unfold addKey
  split
  · assumption
  · simp

theorem takeAtMost_length (p : Char → Bool) (n : Nat) (cs : List Char) :
    (takeAtMost p n cs).1.length ≤ n := by
  induction n generalizing cs with
  | zero => simp [takeAtMost]
  | succ n ih =>
    cases cs with
    | nil => simp [takeAtMost]
    | cons c cs =>
      unfold takeAtMost
      split
      · simpa using ih cs
      · simp

theorem takeAtMost_all (p : Char → Bool) (n : Nat) (cs : List Char) :
    ∀ c ∈ (takeAtMost p n cs).1, p c = true := by
  induction n generalizing cs with
  | zero => simp [takeAtMost]
  | succ n ih =>
    cases cs with
    | nil => simp [takeAtMost]
    | cons c cs =>
      unfold takeAtMost
      split
      · intro x hx
        rcases List.mem_cons.mp hx with h | h
        · subst h; assumption
        · exact ih cs x h
      · simp

theorem mkTicker_shape (ds : List Char) (t : String)
    (h : mkTicker (takeAtMost isTickerCh 5 ds) = some t) :
    1 ≤ t.length ∧ t.length ≤ 5 ∧ t.toList.all Char.isAlpha = true := by
  have hlen := takeAtMost_length isTickerCh 5 ds
  have hall := takeAtMost_all isTickerCh 5 ds
  rcases hg : takeAtMost isTickerCh 5 ds with ⟨g, rest⟩
  rw [hg] at h hlen hall
  cases g with
  | nil => exact absurd h (by simp [mkTicker])
  | cons c g' =>
    have ht : t = String.mk (c :: g') := by
      have := h.symm
      simpa [mkTicker] using this
    subst ht
    refine ⟨by simp [String.length], by simpa [String.length] using hlen, ?_⟩
    rw [List.all_eq_true]
    intro x hx
    exact hall x hx

theorem tickerGroupAt_shape (cs : List Char) (t : String)
    (h : tickerGroupAt cs = some t) :
    1 ≤ t.length ∧ t.length ≤ 5 ∧ t.toList.all Char.isAlpha = true := by
  unfold tickerGroupAt at h
  exact mkTicker_shape _ t h

theorem matchTickerAt_shape (cs : List Char) (t : String)
    (h : matchTickerAt cs = some t) :
    1 ≤ t.length ∧ t.length ≤ 5 ∧ t.toList.all Char.isAlpha = true := by
  unfold matchTickerAt at h
  simp only [Option.bind_eq_some] at h
  obtain ⟨c1, _, c2, _, c3, _, c4, _, c5, _, htail⟩ := h
  exact tickerGroupAt_shape c5 t htail

theorem searchSuffixes_some (m : List Char → Option String) (cs : List Char)
    (t : String) (h : searchSuffixes m cs = some t) :
    ∃ ds, ds <:+ cs ∧ m ds = some t := by
  induction cs with
  | nil => exact ⟨[], List.nil_suffix, h⟩
  | cons c cs ih =>
    unfold searchSuffixes at h
    cases hm : m (c :: cs) with
    | some r =>
      rw [hm] at h
      exact ⟨c :: cs, List.suffix_refl _, hm.trans h⟩
    | none =>
      rw [hm] at h
      obtain ⟨ds, hsuf, hds⟩ := ih h
      exact ⟨ds, hsuf.trans (List.suffix_cons c cs), hds⟩

/-! ## Claims about the state store and the extractor -/

/-- C2: for every key `k`, once `record(k)` (adding `k` to the set)
is followed by a completed `flush()` (serializing the whole set), a
fresh `load()` succeeds and yields a set containing `k` — membership
survives the serialize / read-back round trip. -/
theorem record_flush_load_contains (s : List Key) (k : Key) :
    loadState (saveFile (addKey s k)) = Except.ok (addKey s k)
    ∧ k ∈ addKey s k :=
  ⟨rfl, self_mem_addKey s k⟩

/-- C5 counterexample: `save_state` truncates the state file in place,
so an interruption between the truncation and the completed write
exposes a torn (empty) file whose subsequent load is neither the
complete previous set (here `[("CIK","Kraken","0001-23-456")]`) nor
the complete new one — it raises instead. -/
theorem flush_atomicity_cex :
    FileState.truncated
      ∈ saveStateSteps [["CIK", "Kraken", "0001-23-456"], ["RSS", "urn:1"]]
    ∧ loadState FileState.truncated = Except.error ()
    ∧ loadState FileState.truncated ≠ Except.ok [["CIK", "Kraken", "0001-23-456"]]
    ∧ loadState FileState.truncated
        ≠ Except.ok [["CIK", "Kraken", "0001-23-456"], ["RSS", "urn:1"]] := by
  refine ⟨by simp [saveStateSteps], rfl, ?_, ?_⟩ <;> simp [loadState]

/-- C5 amended: an uninterrupted `save_state` does overwrite the file
with the complete current set (and a later load returns exactly it),
but the write is not atomic: it truncates the file in place with no
temp-file-and-rename, so an interrupted flush can leave a torn, empty
file that a subsequent load rejects. -/
theorem save_state_overwrite_not_atomic (s : List Key) :
    (saveStateSteps s).getLast? = some (saveFile s)
    ∧ loadState (saveFile s) = Except.ok s
    ∧ FileState.truncated ∈ saveStateSteps s
    ∧ loadState FileState.truncated = Except.error () := by
  refine ⟨rfl, rfl, by simp [saveStateSteps], rfl⟩

/-- C6 counterexample: on a present-but-unparseable state file the
start-up load does not return an empty set — the `json.load` failure
propagates (only `FileNotFoundError` is caught). -/
theorem load_corrupt_cex :
    loadState FileState.malformed = Except.error ()
    ∧ loadState FileState.malformed ≠ Except.ok [] := by
  refine ⟨rfl, ?_⟩
  simp [loadState]

/-- C6 amended: the start-up load returns an empty set only when the
state file is missing (`FileNotFoundError` is the sole handled case);
a present-but-corrupt or truncated file makes the load raise, and a
valid file yields exactly its recorded keys. -/
theorem load_missing_vs_corrupt (s : List Key) :
    loadState FileState.missing = Except.ok []
    ∧ loadState FileState.truncated = Except.error ()
    ∧ loadState FileState.malformed = Except.error ()
    ∧ loadState (FileState.valid s) = Except.ok s :=
  ⟨rfl, rfl, rfl, rfl⟩

/-- C9: on text containing the two labeled phrases the extractor
yields exactly the amount `"5,000,000"` (key `'Amount'`) and the
ticker `"ABCD"` (key `'Ticker'`); on text with neither labeled phrase
it yields the empty field set. -/
theorem extraction_example :
    extract_offering_details
        "Maximum Aggregate Offering Price: $5,000,000\nProposed Ticker Symbol: ABCD"
      = { amount := some "5,000,000", ticker := some "ABCD" }
    ∧ extract_offering_details
        "This filing announces an offering with no labeled price and no symbol."
      = { amount := none, ticker := none } := by
  constructor
  · decide
  · decide

/-- C10 counterexample: `re.IGNORECASE` applies to the `[A-Z]{1,5}`
class, so on `"proposed ticker symbol: abc"` the extractor yields the
ticker `"abc"`, which contains lowercase letters — refuting that a
produced ticker consists of uppercase letters. -/
theorem ticker_lowercase_cex :
    (extract_offering_details "proposed ticker symbol: abc").ticker = some "abc"
    ∧ ("abc".toList.any fun c => c.isLower) = true := by
  constructor
  · decide
  · decide

/-- C10 amended: a ticker produced by the extractor is the token
captured after a case-insensitively matched "proposed ticker symbol"
label and consists of 1 to 5 ASCII letters; because IGNORECASE applies
to the `[A-Z]` class as well, the letters may be of either case (the
5-character bound does hold, the uppercase-only part does not). -/
theorem ticker_shape (text t : String)
    (h : (extract_offering_details text).ticker = some t) :
    1 ≤ t.length ∧ t.length ≤ 5 ∧ t.toList.all Char.isAlpha = true := by
  have h' : searchSuffixes matchTickerAt text.toList = some t := h
  obtain ⟨ds, _, hds⟩ := searchSuffixes_some matchTickerAt text.toList t h'
  exact matchTickerAt_shape ds t hds

/-- Witness for `ticker_shape` at the concrete text
`"Proposed Ticker Symbol: ABCD"`. -/
theorem ticker_shape_witness :
    1 ≤ "ABCD".length ∧ "ABCD".length ≤ 5
    ∧ "ABCD".toList.all Char.isAlpha = true :=
  ticker_shape "Proposed Ticker Symbol: ABCD" "ABCD" (by decide)

/-! ## Helper lemmas about one poll cycle -/

theorem postEmbed_preserves (env : Env) (p : Post) (st : CycleState) :
    ((postEmbed env p st).1).seen = st.seen
    ∧ ((postEmbed env p st).1).file = st.file
    ∧ ((postEmbed env p st).1).flushed = st.flushed := by
  cases h : env.postResult st.attempts.length <;> simp [postEmbed, h]

theorem handleCompanyFiling_preserves (cfg : Config) (env : Env) (name : String)
    (f : FilingRow) (st : CycleState) :
    ((handleCompanyFiling cfg env name f st).1).seen = st.seen
    ∧ ((handleCompanyFiling cfg env name f st).1).file = st.file
    ∧ ((handleCompanyFiling cfg env name f st).1).flushed = st.flushed := by
  unfold handleCompanyFiling
  cases h : env.fetchDoc (filingUrl cfg name f.acc f.doc) with
  | error e => exact ⟨rfl, rfl, rfl⟩
  | ok body => exact postEmbed_preserves env _ st

theorem handleIndustryEntry_preserves (env : Env) (e : RssEntry) (st : CycleState) :
    ((handleIndustryEntry env e st).1).seen = st.seen
    ∧ ((handleIndustryEntry env e st).1).file = st.file
    ∧ ((handleIndustryEntry env e st).1).flushed = st.flushed :=
  postEmbed_preserves env _ st

theorem processFilings_preserves (cfg : Config) (env : Env) (name : String)
    (rows : List FilingRow) :
    ∀ st : CycleState,
      ((processFilings cfg env name rows st).1).file = st.file
      ∧ ((processFilings cfg env name rows st).1).flushed = st.flushed
      ∧ ∀ k, k ∈ st.seen → k ∈ ((processFilings cfg env name rows st).1).seen := by
  induction rows with
  | nil => exact fun st => ⟨rfl, rfl, fun k h => h⟩
  | cons f rest ih =>
    intro st
    unfold processFilings
    by_cases hseen : cKey name f ∈ st.seen
    · simp only [if_pos hseen]
      exact ih st
    · simp only [if_neg hseen]
      by_cases hform : f.form ∈ cfg.allowForms
      · simp only [if_pos hform]
        rcases hh : handleCompanyFiling cfg env name f st with ⟨st1, b⟩
        have hp := handleCompanyFiling_preserves cfg env name f st
        rw [hh] at hp
        cases b
        · exact ⟨hp.2.1, hp.2.2, fun k hk => hp.1 ▸ hk⟩
        · have := ih { st1 with seen := addKey st1.seen (cKey name f) }
          refine ⟨this.1.trans hp.2.1, this.2.1.trans hp.2.2, fun k hk => ?_⟩
          exact this.2.2 k (mem_addKey_of_mem _ _ _ (hp.1 ▸ hk))
      · simp only [if_neg hform]
        have := ih { st with seen := addKey st.seen (cKey name f) }
        exact ⟨this.1, this.2.1, fun k hk => this.2.2 k (mem_addKey_of_mem _ _ _ hk)⟩

theorem processRss_preserves (cfg : Config) (env : Env) (entries : List RssEntry) :
    ∀ st : CycleState,
      ((processRss cfg env entries st).1).file = st.file
      ∧ ((processRss cfg env entries st).1).flushed = st.flushed
      ∧ ∀ k, k ∈ st.seen → k ∈ ((processRss cfg env entries st).1).seen := by
  induction entries with
  | nil => exact fun st => ⟨rfl, rfl, fun k h => h⟩
  | cons e rest ih =>
    intro st
    unfold processRss
    by_cases hseen : rKey e ∈ st.seen
    · simp only [if_pos hseen]
      exact ih st
    · simp only [if_neg hseen]
      by_cases hkw : rssRelevant cfg e
      · simp only [if_pos hkw]
        rcases hh : handleIndustryEntry env e st with ⟨st1, b⟩
        have hp := handleIndustryEntry_preserves env e st
        rw [hh] at hp
        cases b
        · exact ⟨hp.2.1, hp.2.2, fun k hk => hp.1 ▸ hk⟩
        · have := ih { st1 with seen := addKey st1.seen (rKey e) }
          refine ⟨this.1.trans hp.2.1, this.2.1.trans hp.2.2, fun k hk => ?_⟩
          exact this.2.2 k (mem_addKey_of_mem _ _ _ (hp.1 ▸ hk))
      · simp only [if_neg hkw]
        have := ih { st with seen := addKey st.seen (rKey e) }
        exact ⟨this.1, this.2.1, fun k hk => this.2.2 k (mem_addKey_of_mem _ _ _ hk)⟩

theorem entityPhase_preserves (cfg : Config) (env : Env)
    (ents : List (String × String)) :
    ∀ st : CycleState,
      ((entityPhase cfg env ents st).1).file = st.file
      ∧ ((entityPhase cfg env ents st).1).flushed = st.flushed
      ∧ ∀ k, k ∈ st.seen → k ∈ ((entityPhase cfg env ents st).1).seen := by
  induction ents with
  | nil => exact fun st => ⟨rfl, rfl, fun k h => h⟩
  | cons q rest ih =>
    intro st
    rcases q with ⟨name, cik⟩
    unfold entityPhase
    cases hf : env.fetchFilings cik with
    | error e => exact ⟨rfl, rfl, fun k h => h⟩
    | ok rows =>
      rcases hp : processFilings cfg env name rows st with ⟨st1, b⟩
      have hpp := processFilings_preserves cfg env name rows st
      rw [hp] at hpp
      cases b
      · simp only [hp]
        exact ⟨hpp.1, hpp.2.1, fun k hk => hpp.2.2 k hk⟩
      · simp only [hp]
        have := ih st1
        exact ⟨this.1.trans hpp.1, this.2.1.trans hpp.2.1,
          fun k hk => this.2.2 k (hpp.2.2 k hk)⟩

theorem processFilings_skip (cfg : Config) (env : Env) (name : String)
    (rows : List FilingRow) (st : CycleState)
    (h : ∀ f ∈ rows, cKey name f ∈ st.seen) :
    processFilings cfg env name rows st = (st, true) := by
  induction rows with
  | nil => rfl
  | cons f rest ih =>
    unfold processFilings
    simp only [if_pos (h f (List.mem_cons_self f rest))]
    exact ih fun g hg => h g (List.mem_cons_of_mem f hg)

theorem processRss_skip (cfg : Config) (env : Env)
    (entries : List RssEntry) (st : CycleState)
    (h : ∀ e ∈ entries, rKey e ∈ st.seen) :
    processRss cfg env entries st = (st, true) := by
  induction entries with
  | nil => rfl
  | cons e rest ih =>
    unfold processRss
    simp only [if_pos (h e (List.mem_cons_self e rest))]
    exact ih fun g hg => h g (List.mem_cons_of_mem e hg)

theorem entityPhase_skip (cfg : Config) (env : Env)
    (ents : List (String × String)) (st : CycleState)
    (h : ∀ p ∈ ents, ∃ rows, env.fetchFilings p.2 = Except.ok rows
          ∧ ∀ f ∈ rows, cKey p.1 f ∈ st.seen) :
    entityPhase cfg env ents st = (st, true) := by
  induction ents with
  | nil => rfl
  | cons q rest ih =>
    rcases q with ⟨name, cik⟩
    obtain ⟨rows, hf, hk⟩ := h (name, cik) (List.mem_cons_self _ rest)
    unfold entityPhase
    simp only [hf]
    rw [processFilings_skip cfg env name rows st hk]
    exact ih fun p hp => h p (List.mem_cons_of_mem _ hp)

theorem processFilings_complete (cfg : Config) (env : Env) (name : String)
    (rows : List FilingRow) :
    ∀ st st' : CycleState, processFilings cfg env name rows st = (st', true) →
      ∀ f ∈ rows, cKey name f ∈ st'.seen := by
  induction rows with
  | nil =>
    intro st st' h f hf
    exact absurd hf (List.not_mem_nil f)
  | cons f rest ih =>
    intro st st' h g hg
    unfold processFilings at h
    by_cases hseen : cKey name f ∈ st.seen
    · rw [if_pos hseen] at h
      rcases List.mem_cons.mp hg with rfl | hg'
      · have hmono := (processFilings_preserves cfg env name rest st).2.2 (cKey name g) hseen
        rw [h] at hmono
        exact hmono
      · exact ih st st' h g hg'
    · rw [if_neg hseen] at h
      by_cases hform : f.form ∈ cfg.allowForms
      · rw [if_pos hform] at h
        rcases hh : handleCompanyFiling cfg env name f st with ⟨st1, b⟩
        cases b
        · rw [hh] at h
          exact absurd h (by simp)
        · simp only [hh] at h
          rcases List.mem_cons.mp hg with rfl | hg'
          · have hk : cKey name g ∈ addKey st1.seen (cKey name g) := self_mem_addKey _ _
            have hmono := (processFilings_preserves cfg env name rest
              { st1 with seen := addKey st1.seen (cKey name g) }).2.2 (cKey name g) hk
            rw [h] at hmono
            exact hmono
          · exact ih _ st' h g hg'
      · rw [if_neg hform] at h
        rcases List.mem_cons.mp hg with rfl | hg'
        · have hk : cKey name g ∈ addKey st.seen (cKey name g) := self_mem_addKey _ _
          have hmono := (processFilings_preserves cfg env name rest
            { st with seen := addKey st.seen (cKey name g) }).2.2 (cKey name g) hk
          rw [h] at hmono
          exact hmono
        · exact ih _ st' h g hg'

theorem processRss_complete (cfg : Config) (env : Env)
    (entries : List RssEntry) :
    ∀ st st' : CycleState, processRss cfg env entries st = (st', true) →
      ∀ e ∈ entries, rKey e ∈ st'.seen := by
  induction entries with
  | nil =>
    intro st st' h e he
    exact absurd he (List.not_mem_nil e)
  | cons e rest ih =>
    intro st st' h g hg
    unfold processRss at h
    by_cases hseen : rKey e ∈ st.seen
    · rw [if_pos hseen] at h
      rcases List.mem_cons.mp hg with rfl | hg'
      · have hmono := (processRss_preserves cfg env rest st).2.2 (rKey g) hseen
        rw [h] at hmono
        exact hmono
      · exact ih st st' h g hg'
    · rw [if_neg hseen] at h
      by_cases hkw : rssRelevant cfg e
      · rw [if_pos hkw] at h
        rcases hh : handleIndustryEntry env e st with ⟨st1, b⟩
        cases b
        · rw [hh] at h
          exact absurd h (by simp)
        · simp only [hh] at h
          rcases List.mem_cons.mp hg with rfl | hg'
          · have hk : rKey g ∈ addKey st1.seen (rKey g) := self_mem_addKey _ _
            have hmono := (processRss_preserves cfg env rest
              { st1 with seen := addKey st1.seen (rKey g) }).2.2 (rKey g) hk
            rw [h] at hmono
            exact hmono
          · exact ih _ st' h g hg'
      · rw [if_neg hkw] at h
        rcases List.mem_cons.mp hg with rfl | hg'
        · have hk : rKey g ∈ addKey st.seen (rKey g) := self_mem_addKey _ _
          have hmono := (processRss_preserves cfg env rest
            { st with seen := addKey st.seen (rKey g) }).2.2 (rKey g) hk
          rw [h] at hmono
          exact hmono
        · exact ih _ st' h g hg'

theorem entityPhase_complete (cfg : Config) (env : Env)
    (ents : List (String × String)) :
    ∀ st st' : CycleState, entityPhase cfg env ents st = (st', true) →
      ∀ p ∈ ents, ∃ rows, env.fetchFilings p.2 = Except.ok rows
        ∧ ∀ f ∈ rows, cKey p.1 f ∈ st'.seen := by
  induction ents with
  | nil =>
    intro st st' h p hp
    exact absurd hp (List.not_mem_nil p)
  | cons q rest ih =>
    intro st st' h p hp
    rcases q with ⟨name, cik⟩
    unfold entityPhase at h
    cases hf : env.fetchFilings cik with
    | error e =>
      simp only [hf] at h
      exact absurd h (by simp)
    | ok rows =>
      simp only [hf] at h
      rcases hpr : processFilings cfg env name rows st with ⟨st1, b⟩
      cases b
      · simp only [hpr] at h
        exact absurd h (by simp)
      · simp only [hpr] at h
        rcases List.mem_cons.mp hp with rfl | hp'
        · refine ⟨rows, hf, fun f hfm => ?_⟩
          have h1 := processFilings_complete cfg env name rows st st1 hpr f hfm
          have h2 := (entityPhase_preserves cfg env rest st1).2.2 (cKey name f) h1
          rw [h] at h2
          exact h2
        · exact ih st1 st' h p hp'

/-! ## Claims about the poll cycle -/

/-- C1: a cycle whose sources return exactly the record set of a
fully completed (and flushed) prior cycle changes nothing: the state
is reproduced verbatim — in particular the trace of webhook posts is
unchanged, so zero additional notifications are produced (every key is
caught by the seen-check and skipped before relevance, extraction or
dispatch) — and the cycle still completes cleanly. -/
theorem cycle_idempotent (cfg : Config) (env : Env) (st : CycleState)
    (h : (cycleBody cfg env st).2 = true) :
    runCycle cfg env (runCycle cfg env st) = runCycle cfg env st
    ∧ (runCycle cfg env (runCycle cfg env st)).attempts
        = (runCycle cfg env st).attempts
    ∧ (cycleBody cfg env (runCycle cfg env st)).2 = true := by
  rcases hE : entityPhase cfg env cfg.ciks st with ⟨st1, b1⟩
  cases b1
  · exact absurd h (by simp [cycleBody, hE])
  · cases hR : env.fetchRss with
    | error e => exact absurd h (by simp [cycleBody, hE, hR])
    | ok entries =>
      rcases hP : processRss cfg env entries st1 with ⟨st2, b2⟩
      cases b2
      · exact absurd h (by simp [cycleBody, hE, hR, hP])
      · have hrun : runCycle cfg env st = saveState st2 := by
          simp [runCycle, cycleBody, hE, hR, hP]
        have hskipE : entityPhase cfg env cfg.ciks (saveState st2)
            = (saveState st2, true) := by
          apply entityPhase_skip
          intro p hp
          obtain ⟨rows, hf, hk⟩ := entityPhase_complete cfg env cfg.ciks st st1 hE p hp
          refine ⟨rows, hf, fun f hfm => ?_⟩
          have h2 := (processRss_preserves cfg env entries st1).2.2 (cKey p.1 f) (hk f hfm)
          rw [hP] at h2
          exact h2
        have hskipR : processRss cfg env entries (saveState st2)
            = (saveState st2, true) := by
          apply processRss_skip
          intro e he
          exact processRss_complete cfg env entries st1 st2 hP e he
        have hsave2 : saveState (saveState st2) = saveState st2 := by
          simp [saveState]
        have hcb2 : cycleBody cfg env (saveState st2) = (saveState st2, true) := by
          simp [cycleBody, hskipE, hR, hskipR, hsave2]
        rw [hrun]
        exact ⟨by simp [runCycle, hcb2], by simp [runCycle, hcb2], by simp [hcb2]⟩

/-- Witness for `cycle_idempotent`: a concrete first cycle (one new
relevant company filing, one matching feed entry, all calls
succeeding) followed by a second cycle over the same sources. -/
theorem cycle_idempotent_witness :
    runCycle testCfg okEnv (runCycle testCfg okEnv st0) = runCycle testCfg okEnv st0
    ∧ (runCycle testCfg okEnv (runCycle testCfg okEnv st0)).attempts
        = (runCycle testCfg okEnv st0).attempts
    ∧ (cycleBody testCfg okEnv (runCycle testCfg okEnv st0)).2 = true :=
  cycle_idempotent testCfg okEnv st0 (by decide)

/-- C3 counterexample: when the webhook post fails at the transport
level (`requests.post` raising is not caught inside
`post_embed_to_discord`), the exception aborts the cycle: the key of
the filing whose delivery failed is NOT recorded as seen, the second
new relevant filing of the same cycle is never processed (only one
post was attempted), and the flush never runs — refuting that a
delivery failure of either kind leaves recording and the rest of the
cycle intact. -/
theorem delivery_transport_cex :
    (runCycle testCfg envPostDown st0).attempts.length = 1
    ∧ cKey "Kraken" rowS1 ∉ (runCycle testCfg envPostDown st0).seen
    ∧ (runCycle testCfg envPostDown st0).seen = []
    ∧ (runCycle testCfg envPostDown st0).flushed = false := by
  exact ⟨by decide, by decide, by decide, by decide⟩

/-- C3 amended: only a webhook *rejection* (error HTTP status) is the
recovered delivery failure: `raise_for_status` raises inside the
handler's `try`, is logged, and the cycle goes on — on both paths.  A
rejected post for a company filing still records its key as seen and
the loop continues with the remaining rows; a rejected post for an
industry feed entry likewise still records its key and the loop
continues with the remaining entries.  A transport-level failure of
the post instead propagates, skips the recording and aborts the rest
of the cycle (see the counterexample). -/
theorem delivery_rejected_continues
    (cfg : Config) (env : Env) (name : String) (f : FilingRow) (e : RssEntry)
    (rest : List FilingRow) (restE : List RssEntry) (st stR : CycleState)
    (body : String)
    (hnew : cKey name f ∉ st.seen)
    (hform : f.form ∈ cfg.allowForms)
    (hdoc : env.fetchDoc (filingUrl cfg name f.acc f.doc) = Except.ok body)
    (hpost : env.postResult st.attempts.length = PostResult.httpError)
    (hnewR : rKey e ∉ stR.seen)
    (hkw : rssRelevant cfg e = true)
    (hpostR : env.postResult stR.attempts.length = PostResult.httpError) :
    processFilings cfg env name (f :: rest) st
      = processFilings cfg env name rest
          { st with
            seen := addKey st.seen (cKey name f)
            attempts := st.attempts ++ [companyPost cfg name f body] }
    ∧ cKey name f ∈ addKey st.seen (cKey name f)
    ∧ processRss cfg env (e :: restE) stR
        = processRss cfg env restE
            { stR with
              seen := addKey stR.seen (rKey e)
              attempts := stR.attempts ++ [industryPost e] }
    ∧ rKey e ∈ addKey stR.seen (rKey e) := by
  have hh : handleCompanyFiling cfg env name f st
      = ({ st with attempts := st.attempts ++ [companyPost cfg name f body] }, true) := by
    simp [handleCompanyFiling, hdoc, postEmbed, hpost]
  have hhR : handleIndustryEntry env e stR
      = ({ stR with attempts := stR.attempts ++ [industryPost e] }, true) := by
    simp [handleIndustryEntry, postEmbed, hpostR]
  refine ⟨?_, self_mem_addKey _ _, ?_, self_mem_addKey _ _⟩
  · simp [processFilings, hnew, hform, hh]
  · simp [processRss, hnewR, hkw, hhR]

/-- Witness for `delivery_rejected_continues`: the webhook rejects the
post for Kraken's new S-1 filing and the post for a matching feed
entry, yet both keys are recorded and both loops move on. -/
theorem delivery_rejected_continues_witness :
    processFilings testCfg envPostReject "Kraken" [rowS1] st0
      = processFilings testCfg envPostReject "Kraken" []
          { st0 with
            seen := addKey st0.seen (cKey "Kraken" rowS1)
            attempts := st0.attempts ++ [companyPost testCfg "Kraken" rowS1 "x"] }
    ∧ cKey "Kraken" rowS1 ∈ addKey st0.seen (cKey "Kraken" rowS1)
    ∧ processRss testCfg envPostReject [entryKw] st0
        = processRss testCfg envPostReject []
            { st0 with
              seen := addKey st0.seen (rKey entryKw)
              attempts := st0.attempts ++ [industryPost entryKw] }
    ∧ rKey entryKw ∈ addKey st0.seen (rKey entryKw) :=
  delivery_rejected_continues testCfg envPostReject "Kraken" rowS1 entryKw
    [] [] st0 st0 "x"
    (by decide) (by decide) rfl rfl (by decide) (by decide) rfl

/-- C4 counterexample: the whole cycle body runs inside one `try`, so
a raised `fetch_filings` for the first entity aborts everything: here
Gemini's fetch would return a new relevant filing and the feed a
matching entry, yet the cycle ends with the state untouched — no
remaining source is processed and the end-of-cycle flush never runs —
refuting that a fetch failure aborts only the failing source. -/
theorem fetch_error_cex :
    runCycle testCfg envFetchDown st0 = st0
    ∧ (cycleBody testCfg envFetchDown st0).2 = false
    ∧ envFetchDown.fetchFilings "0001845748" = Except.ok [rowS2]
    ∧ envFetchDown.fetchRss = Except.ok [entryKw] := by
  exact ⟨by decide, by decide, rfl, rfl⟩

/-- C4 amended: a fetch failure is caught only at cycle granularity.
A raised entity fetch stops the entity loop with the state as it was,
and when the failing entity comes first the whole cycle is a no-op
(nothing else is fetched, no flush) — though the `except` swallows the
error so the process itself survives to the next cycle.  An industry
feed fetch failure after a clean entity phase keeps the entity phase's
in-memory effects but also skips the flush. -/
theorem fetch_error_aborts_whole_cycle
    (cfg : Config) (env env₂ : Env) (name cik : String)
    (rest : List (String × String)) (st st₂ st₁ : CycleState)
    (hciks : cfg.ciks = (name, cik) :: rest)
    (hfetch : env.fetchFilings cik = Except.error ())
    (hrss : env₂.fetchRss = Except.error ())
    (hEP : entityPhase cfg env₂ cfg.ciks st₂ = (st₁, true)) :
    entityPhase cfg env ((name, cik) :: rest) st = (st, false)
    ∧ runCycle cfg env st = st
    ∧ (cycleBody cfg env st).2 = false
    ∧ runCycle cfg env₂ st₂ = st₁
    ∧ (cycleBody cfg env₂ st₂).2 = false
    ∧ st₁.flushed = st₂.flushed := by
  have h1 : entityPhase cfg env ((name, cik) :: rest) st = (st, false) := by
    unfold entityPhase
    simp [hfetch]
  have h2 : st₁.flushed = st₂.flushed := by
    have := (entityPhase_preserves cfg env₂ cfg.ciks st₂).2.1
    rw [hEP] at this
    exact this
  exact ⟨h1, by simp [runCycle, cycleBody, hciks, h1],
    by simp [cycleBody, hciks, h1],
    by simp [runCycle, cycleBody, hEP, hrss],
    by simp [cycleBody, hEP, hrss], h2⟩

/-- Witness for `fetch_error_aborts_whole_cycle`: Kraken's fetch
raises in one world; in another the feed fetch raises after a clean
entity phase. -/
theorem fetch_error_aborts_whole_cycle_witness :
    entityPhase testCfg envFetchDown
        [("Kraken", "0001763926"), ("Gemini", "0001845748")] st0 = (st0, false)
    ∧ runCycle testCfg envFetchDown st0 = st0
    ∧ (cycleBody testCfg envFetchDown st0).2 = false
    ∧ runCycle testCfg envRssDown st0
        = (entityPhase testCfg envRssDown testCfg.ciks st0).1
    ∧ (cycleBody testCfg envRssDown st0).2 = false
    ∧ ((entityPhase testCfg envRssDown testCfg.ciks st0).1).flushed = st0.flushed :=
  fetch_error_aborts_whole_cycle testCfg envFetchDown envRssDown
    "Kraken" "0001763926" [("Gemini", "0001845748")] st0 st0
    (entityPhase testCfg envRssDown testCfg.ciks st0).1
    rfl rfl rfl (by decide)

/-- C7 counterexample: the document fetch in `handle_company_filing`
has no error handling, so a raised request aborts the cycle with no
notification at all for the relevant filing (no post attempted, key
not recorded, no flush) — refuting that a document-fetch failure
degrades to a no-field notification. -/
theorem doc_fetch_error_cex :
    runCycle testCfg envDocDown st0 = st0
    ∧ (runCycle testCfg envDocDown st0).attempts = []
    ∧ (cycleBody testCfg envDocDown st0).2 = false := by
  exact ⟨by decide, by decide, by decide⟩

/-- C7 amended: the degradation holds only when the document request
returns a response: whatever its text (the status is never checked),
extraction runs over it, and when no pattern matches the notification
is still built and sent with an empty field list.  A transport-level
failure of the request instead raises, skips that filing's
notification and recording, and aborts the rest of the cycle. -/
theorem doc_fetch_degrade_or_abort
    (cfg : Config) (env₁ env₂ : Env) (name : String) (f : FilingRow)
    (rest : List FilingRow) (st₁ st₂ : CycleState) (body : String)
    (hnew₁ : cKey name f ∉ st₁.seen)
    (hnew₂ : cKey name f ∉ st₂.seen)
    (hform : f.form ∈ cfg.allowForms)
    (herr : env₁.fetchDoc (filingUrl cfg name f.acc f.doc) = Except.error ())
    (hok : env₂.fetchDoc (filingUrl cfg name f.acc f.doc) = Except.ok body)
    (hempty : extract_offering_details (String.mk (body.toList.take 2000))
        = { amount := none, ticker := none })
    (hpost : env₂.postResult st₂.attempts.length = PostResult.success) :
    processFilings cfg env₁ name (f :: rest) st₁ = (st₁, false)
    ∧ companyPost cfg name f body
        = { title := name ++ " filed " ++ f.form
            description := "Date: " ++ f.date
            url := filingUrl cfg name f.acc f.doc
            fields := [] }
    ∧ processFilings cfg env₂ name (f :: rest) st₂
        = processFilings cfg env₂ name rest
            { st₂ with
              seen := addKey st₂.seen (cKey name f)
              attempts := st₂.attempts ++ [companyPost cfg name f body] } := by
  have habort : handleCompanyFiling cfg env₁ name f st₁ = (st₁, false) := by
    simp [handleCompanyFiling, herr]
  have hcp : companyPost cfg name f body
      = { title := name ++ " filed " ++ f.form
          description := "Date: " ++ f.date
          url := filingUrl cfg name f.acc f.doc
          fields := [] } := by
    have hempty' : extract_offering_details { data := body.data.take 2000 }
        = { amount := none, ticker := none } := hempty
    simp [companyPost, detailsFields, hempty']
  have hh : handleCompanyFiling cfg env₂ name f st₂
      = ({ st₂ with attempts := st₂.attempts ++ [companyPost cfg name f body] }, true) := by
    simp [handleCompanyFiling, hok, postEmbed, hpost]
  refine ⟨?_, hcp, ?_⟩
  · simp [processFilings, hnew₁, hform, habort]
  · simp [processFilings, hnew₂, hform, hh]

/-- Witness for `doc_fetch_degrade_or_abort`: Kraken's new S-1 filing
with the document fetch raising in one world and returning the
pattern-free text `"x"` in the other. -/
theorem doc_fetch_degrade_or_abort_witness :
    processFilings testCfg envDocDown "Kraken" [rowS1] st0 = (st0, false)
    ∧ companyPost testCfg "Kraken" rowS1 "x"
        = { title := "Kraken" ++ " filed " ++ rowS1.form
            description := "Date: " ++ rowS1.date
            url := filingUrl testCfg "Kraken" rowS1.acc rowS1.doc
            fields := [] }
    ∧ processFilings testCfg okEnv "Kraken" [rowS1] st0
        = processFilings testCfg okEnv "Kraken" []
            { st0 with
              seen := addKey st0.seen (cKey "Kraken" rowS1)
              attempts := st0.attempts ++ [companyPost testCfg "Kraken" rowS1 "x"] } :=
  doc_fetch_degrade_or_abort testCfg envDocDown okEnv "Kraken" rowS1 [] st0 st0 "x"
    (by decide) (by decide) (by decide) rfl rfl (by decide) rfl

/-- C8: a filing that fails its relevance test — a company filing
whose form is not allow-listed, or a feed entry without a matching
keyword — is recorded as seen with no handler call (no extraction, no
post) in the cycle that first meets it; and once its key is in the
seen set, any later processing of the same record skips it before the
relevance test, so it is never re-evaluated or notified. -/
theorem irrelevant_recorded_never_reevaluated
    (cfg : Config) (env : Env) (name : String) (f : FilingRow) (e : RssEntry)
    (rest : List FilingRow) (restE : List RssEntry) (st stSeen : CycleState)
    (hfNew : cKey name f ∉ st.seen)
    (hform : f.form ∉ cfg.allowForms)
    (heNew : rKey e ∉ st.seen)
    (hkw : rssRelevant cfg e = false)
    (hfSeen : cKey name f ∈ stSeen.seen)
    (heSeen : rKey e ∈ stSeen.seen) :
    processFilings cfg env name (f :: rest) st
      = processFilings cfg env name rest { st with seen := addKey st.seen (cKey name f) }
    ∧ (processFilings cfg env name [f] st).1.attempts = st.attempts
    ∧ (processFilings cfg env name [f] st).2 = true
    ∧ cKey name f ∈ (processFilings cfg env name [f] st).1.seen
    ∧ processFilings cfg env name (f :: rest) stSeen
        = processFilings cfg env name rest stSeen
    ∧ processRss cfg env (e :: restE) st
      = processRss cfg env restE { st with seen := addKey st.seen (rKey e) }
    ∧ (processRss cfg env [e] st).1.attempts = st.attempts
    ∧ (processRss cfg env [e] st).2 = true
    ∧ rKey e ∈ (processRss cfg env [e] st).1.seen
    ∧ processRss cfg env (e :: restE) stSeen = processRss cfg env restE stSeen := by
  refine ⟨?_, ?_, ?_, ?_, ?_, ?_, ?_, ?_, ?_, ?_⟩
  · simp [processFilings, hfNew, hform]
  · simp [processFilings, hfNew, hform]
  · simp [processFilings, hfNew, hform]
  · simp only [processFilings, if_neg hfNew, if_neg hform]
    exact self_mem_addKey _ _
  · simp [processFilings, hfSeen]
  · simp [processRss, heNew, hkw]
  · simp [processRss, heNew, hkw]
  · simp [processRss, heNew, hkw]
  · simp only [processRss, if_neg heNew, hkw, Bool.false_eq_true, if_false]
    exact self_mem_addKey _ _
  · simp [processRss, heSeen]

/-- Witness for `irrelevant_recorded_never_reevaluated`: Kraken's
10-K filing and a keyword-free feed entry, first against the empty
state and then against a state that has already seen both keys. -/
theorem irrelevant_recorded_witness :
    processFilings testCfg okEnv "Kraken" [rowTenK] st0
      = processFilings testCfg okEnv "Kraken" []
          { st0 with seen := addKey st0.seen (cKey "Kraken" rowTenK) }
    ∧ (processFilings testCfg okEnv "Kraken" [rowTenK] st0).1.attempts = st0.attempts
    ∧ (processFilings testCfg okEnv "Kraken" [rowTenK] st0).2 = true
    ∧ cKey "Kraken" rowTenK ∈ (processFilings testCfg okEnv "Kraken" [rowTenK] st0).1.seen
    ∧ processFilings testCfg okEnv "Kraken" [rowTenK] stSeenBoth
        = processFilings testCfg okEnv "Kraken" [] stSeenBoth
    ∧ processRss testCfg okEnv [entryNoKw] st0
      = processRss testCfg okEnv []
          { st0 with seen := addKey st0.seen (rKey entryNoKw) }
    ∧ (processRss testCfg okEnv [entryNoKw] st0).1.attempts = st0.attempts
    ∧ (processRss testCfg okEnv [entryNoKw] st0).2 = true
    ∧ rKey entryNoKw ∈ (processRss testCfg okEnv [entryNoKw] st0).1.seen
    ∧ processRss testCfg okEnv [entryNoKw] stSeenBoth
        = processRss testCfg okEnv [] stSeenBoth :=
  irrelevant_recorded_never_reevaluated testCfg okEnv "Kraken" rowTenK entryNoKw
    [] [] st0 stSeenBoth
    (by decide) (by decide) (by decide) (by decide) (by decide) (by decide)

end Edgar
